import Mathlib

/-!
Verification of the drone-time time subsystem.

This file gives a shallow embedding of the relevant parts of the
drone-time crate and proves properties of that embedding:

* `TimeSpan` (src/timespan.rs): signed 64-bit tick counts; `parts` /
  `from_parts`.  Rust `i64` arithmetic is modelled with `Int`, and Rust's
  truncating division/remainder with `Int.tdiv` / `Int.tmod`.  None of the
  operations studied here get anywhere near the `i64` bounds, so wrap-around
  is not modelled.
* `DateTime` (src/datetime.rs): unsigned 32-bit seconds since the Unix
  epoch, modelled with `Nat`; `new` and `parts` are studied only on inputs
  whose second count fits in `u32` (and hence whose day count fits in
  `u16`), where the `Nat` model agrees with the Rust integer types.
* `Watch` (src/watch.rs): the wall-clock projection from an anchor.
* `AlarmTimer::sleep` (src/adapters/alarm.rs): the compare values
  programmed to the hardware in `AlwaysRunning` mode.
* The `Alarm` multiplexer queue (src/alarm.rs): `get_insert_index`,
  the subscription state machine, and the timer-fire pass.
* The `Uptime` driver (src/uptime_drv.rs): a small-step machine whose
  atomic steps are exactly the atomic operations of `UptimeDrv::sample` /
  `UptimeDrv::get_overflows`, with a LIFO stack of in-flight preempting
  `now()` calls and hardware counter ticks interleaved at arbitrary points.
-/

namespace DroneTime

/-! ## TimeSpan (src/timespan.rs)

`TimeSpan<T>` is an `i64` count of ticks at `T::FREQ` ticks per second.
The model takes the frequency `freq` as an explicit parameter
(`TICKS_PER_SEC` in the source).  -/

/-- The components returned by `TimeSpan::parts` (src/timespan.rs, `TimeSpanParts`). -/
structure TimeSpanParts where
  days : Int
  hours : Int
  mins : Int
  secs : Int
  millis : Int
deriving DecidableEq, Repr

namespace TimeSpan

/-- `TimeSpan::parts` (src/timespan.rs lines 120-145): successively split off
whole days, hours, minutes and seconds, then round the remaining sub-second
ticks to the nearest millisecond. -/
def parts (freq : Int) (ticks0 : Int) : TimeSpanParts :=
  let ticksPerSec := freq
  let ticksPerMin := ticksPerSec * 60
  let ticksPerHour := ticksPerMin * 60
  let ticksPerDay := ticksPerHour * 24
  let days := Int.tdiv ticks0 ticksPerDay
  let ticks1 := ticks0 - days * ticksPerDay
  let hours := Int.tdiv ticks1 ticksPerHour
  let ticks2 := ticks1 - hours * ticksPerHour
  let mins := Int.tdiv ticks2 ticksPerMin
  let ticks3 := ticks2 - mins * ticksPerMin
  let secs := Int.tdiv ticks3 ticksPerSec
  let ticks4 := ticks3 - secs * ticksPerSec
  let millis := Int.tdiv (ticks4 * 1000 + Int.tdiv ticksPerSec 2) ticksPerSec
  { days := days, hours := hours, mins := mins, secs := secs, millis := millis }

/-- `TimeSpan::from_parts` (src/timespan.rs lines 56-69).  The Rust function
`assert!`s that every component is inside its range; a failed assertion is a
panic, modelled by `none`.  The day bounds `MIN_DAYS`/`MAX_DAYS` are
`i32::MIN/MAX` divided down to days (src/timespan.rs lines 32-37). -/
def from_parts (freq : Int) (p : TimeSpanParts) : Option Int :=
  let maxDays : Int := 2147483647 / 60 / 60 / 24
  let minDays : Int := -(2147483648 / 60 / 60 / 24)
  if p.days ≥ minDays ∧ p.days ≤ maxDays ∧
      p.hours > -24 ∧ p.hours < 24 ∧
      p.mins > -60 ∧ p.mins < 60 ∧
      p.secs > -60 ∧ p.secs < 60 ∧
      p.millis > -1000 ∧ p.millis < 1000 then
    some (p.days * (freq * 60 * 60 * 24)
      + p.hours * (freq * 60 * 60)
      + p.mins * (freq * 60)
      + p.secs * freq
      + Int.tdiv (p.millis * freq) 1000)
  else
    none

end TimeSpan

/-! ## DateTime (src/datetime.rs) -/

/-- `Month` (src/datetime.rs lines 30-45). -/
inductive Month where
  | january
  | february
  | march
  | april
  | may
  | june
  | july
  | august
  | september
  | october
  | november
  | december
deriving DecidableEq, Repr

/-- The numeric value of a month, 1 to 12 (the `#[repr(u8)]` discriminants). -/
def Month.num : Month → Nat
  | .january => 1
  | .february => 2
  | .march => 3
  | .april => 4
  | .may => 5
  | .june => 6
  | .july => 7
  | .august => 8
  | .september => 9
  | .october => 10
  | .november => 11
  | .december => 12

/-- `From<u8> for Month` (src/datetime.rs lines 47-65).  The source hits
`unreachable!` outside 1..=12; the model returns `january` there, and every
theorem below only evaluates it on 1..=12. -/
def Month.from_u8 (n : Nat) : Month :=
  match n with
  | 1 => .january
  | 2 => .february
  | 3 => .march
  | 4 => .april
  | 5 => .may
  | 6 => .june
  | 7 => .july
  | 8 => .august
  | 9 => .september
  | 10 => .october
  | 11 => .november
  | 12 => .december
  | _ => .january

/-- `is_leap_year` (src/datetime.rs lines 197-207). -/
def is_leap_year (year : Nat) : Bool :=
  if year % 4 > 0 then false
  else if year % 100 > 0 then true
  else if year % 400 > 0 then false
  else true

/-- `days_in_month` (src/datetime.rs lines 179-187): the fixed table with
February adjusted in leap years. -/
def days_in_month (year : Nat) (month : Month) : Nat :=
  if is_leap_year year ∧ month = Month.february then 29
  else
    match month with
    | .january => 31
    | .february => 28
    | .march => 31
    | .april => 30
    | .may => 31
    | .june => 30
    | .july => 31
    | .august => 31
    | .september => 30
    | .october => 31
    | .november => 30
    | .december => 31

/-- `days_in_year` (src/datetime.rs lines 189-195). -/
def days_in_year (year : Nat) : Nat :=
  if is_leap_year year then 366 else 365

/-- `DateTimeParts` (src/datetime.rs lines 11-18). -/
structure DateTimeParts where
  year : Nat
  month : Month
  day : Nat
  hour : Nat
  minute : Nat
  second : Nat
deriving DecidableEq, Repr

namespace DateTime

/-- Days contributed by the whole years `EPOCH_YEAR .. EPOCH_YEAR + n`
(the first loop of `DateTime::new`, src/datetime.rs lines 79-81). -/
def days_before_year : Nat → Nat
  | 0 => 0
  | n + 1 => days_before_year n + days_in_year (1970 + n)

/-- Days contributed by the whole months `1 .. m` of `year`
(the second loop of `DateTime::new`, src/datetime.rs lines 83-86). -/
def days_before_month (year : Nat) : Nat → Nat
  | 0 => 0
  | 1 => 0
  | n + 2 => days_before_month year (n + 1) + days_in_month year (Month.from_u8 (n + 1))

/-- `DateTime::new` (src/datetime.rs lines 76-93): seconds since the epoch.
On every input considered in the theorems below the result fits `u32` and
the intermediate day count fits `u16`, so plain `Nat` arithmetic agrees with
the source's `u16`/`u32` arithmetic. -/
def new (year : Nat) (month : Month) (day hour minute second : Nat) : Nat :=
  let days := (day - 1) + days_before_year (year - 1970) + days_before_month year month.num
  days * 86400 + hour * 3600 + minute * 60 + second

/-- The year loop of `DateTime::parts` (src/datetime.rs lines 113-121),
written with explicit fuel: each iteration subtracts at least one second,
so `seconds + 1` fuel always suffices. -/
def year_loop : Nat → Nat → Nat → Nat × Nat
  | 0, year, seconds => (year, seconds)
  | fuel + 1, year, seconds =>
    if days_in_year year * 86400 ≤ seconds then
      year_loop fuel (year + 1) (seconds - days_in_year year * 86400)
    else
      (year, seconds)

/-- The month loop of `DateTime::parts` (src/datetime.rs lines 123-131). -/
def month_loop : Nat → Nat → Nat → Nat → Nat × Nat
  | 0, _year, month, seconds => (month, seconds)
  | fuel + 1, year, month, seconds =>
    if days_in_month year (Month.from_u8 month) * 86400 ≤ seconds then
      month_loop fuel year (month + 1) (seconds - days_in_month year (Month.from_u8 month) * 86400)
    else
      (month, seconds)

/-- The day/hour/minute loops of `DateTime::parts` (src/datetime.rs lines
133-146): repeatedly subtract the constant `c` while it fits, counting. -/
def sub_loop (c : Nat) : Nat → Nat → Nat → Nat × Nat
  | 0, cnt, seconds => (cnt, seconds)
  | fuel + 1, cnt, seconds =>
    if c ≤ seconds then sub_loop c fuel (cnt + 1) (seconds - c)
    else (cnt, seconds)

/-- Verification helper: the seconds of `n` whole years starting at `y0`,
accumulated front-first (`secs_before_years y0 n = Σ_{i<n} days_in_year
(y0 + i) * 86400`). -/
def secs_before_years (y0 : Nat) : Nat → Nat
  | 0 => 0
  | n + 1 => days_in_year y0 * 86400 + secs_before_years (y0 + 1) n

/-- Verification helper: the seconds of `n` whole months starting at month
number `m0` of `year`, accumulated front-first. -/
def secs_before_months (year m0 : Nat) : Nat → Nat
  | 0 => 0
  | n + 1 => days_in_month year (Month.from_u8 m0) * 86400 + secs_before_months year (m0 + 1) n

/-- `DateTime::parts` (src/datetime.rs lines 105-156). -/
def parts (secs : Nat) : DateTimeParts :=
  let yr := year_loop (secs + 1) 1970 secs
  let mo := month_loop (yr.2 + 1) yr.1 1 yr.2
  let dy := sub_loop 86400 (mo.2 + 1) 1 mo.2
  let hr := sub_loop 3600 (dy.2 + 1) 0 dy.2
  let mi := sub_loop 60 (hr.2 + 1) 0 hr.2
  { year := yr.1, month := Month.from_u8 mo.1, day := dy.1,
    hour := hr.1, minute := mi.1, second := mi.2 }

end DateTime

/-! ## Watch (src/watch.rs)

A `Watch` holds an optional anchor `(datetime, upstamp)`.  `DateTime ±
TimeSpan` (src/datetime.rs lines 159-173) adds/subtracts the whole seconds
of the span to/from the second count.  The span-to-seconds conversion the
source calls (`total_seconds`) is not present in src/timespan.rs; modelled
from the spec ("`at(t)` returns `dt + (t - t0)`", with TimeSpan/DateTime
arithmetic in whole seconds, i.e. `as_secs`: ticks divided by `FREQ`
truncating toward zero). -/

namespace Watch

/-- Modelled from the spec: `TimeSpan::total_seconds`, which
`DateTime::add`/`sub` (src/datetime.rs lines 159-173) call, is missing
from src/timespan.rs.  Per §4.3/§4.4 the DateTime arithmetic works in
whole seconds of the span, i.e. `TimeSpan::as_secs` (src/timespan.rs
lines 159-161): the tick count divided by `FREQ`, truncating toward
zero. -/
def total_seconds (freq ticks : Int) : Int :=
  Int.tdiv ticks freq

/-- `DateTime + TimeSpan` (src/datetime.rs lines 159-165) on the `Nat`
second counter. -/
def dt_add (freq : Int) (dt : Nat) (span : Int) : Nat :=
  (Int.toNat ((dt : Int) + total_seconds freq span))

/-- `DateTime - TimeSpan` (src/datetime.rs lines 167-173). -/
def dt_sub (freq : Int) (dt : Nat) (span : Int) : Nat :=
  (Int.toNat ((dt : Int) - total_seconds freq span))

/-- `Watch::at` (src/watch.rs lines 34-46).  The anchor (`adjust`) is
`some (datetime, upstamp)` once `set` has been called, `none` before;
`upstamp`s are tick counts.  `none` output is the `NotSetError`. -/
def at' (freq : Int) (adjust : Option (Nat × Int)) (upstamp : Int) : Option Nat :=
  match adjust with
  | some a =>
    if upstamp > a.2 then
      some (dt_add freq a.1 (upstamp - a.2))
    else
      some (dt_sub freq a.1 (a.2 - upstamp))
  | none => none

/-- `Watch::now` (src/watch.rs lines 30-32): `at` applied to the current
uptime sample. -/
def now (freq : Int) (adjust : Option (Nat × Int)) (uptimeNow : Int) : Option Nat :=
  at' freq adjust uptimeNow

end Watch

/-! ## AlarmTimer::sleep (src/adapters/alarm.rs)

`AlarmTimer` has `MAX`, `PERIOD = MAX + 1` and `HALF_PERIOD = PERIOD / 2`.
In `AlwaysRunning` mode, `sleep(base, duration)` programs a sequence of
compare values into the hardware via `next(compare, soon)`; the model
returns that sequence. -/

namespace AlarmTimer

/-- `AlarmTimer::counter_add` (src/adapters/alarm.rs lines 86-90):
`(base + duration) % PERIOD`.  The source `assert!`s `base ≤ MAX` and
`duration ≤ MAX`; every call site below satisfies both. -/
def counter_add (max' base duration : Nat) : Nat :=
  (base + duration) % (max' + 1)

/-- The `AlwaysRunning` loop of `AlarmTimer::sleep` (src/adapters/alarm.rs
lines 60-71): while at least a full period remains, step by half a period;
finally program the exact end point.  The guard `1 ≤ (max' + 1) / 2`
(i.e. `max' ≥ 1`) only rules out the `max' = 0` case on which the source
loop would never terminate; it never fires for a real timer. -/
def sleep_compares (max' : Nat) (base remaining : Nat) : List Nat :=
  if h : max' + 1 ≤ remaining ∧ 1 ≤ (max' + 1) / 2 then
    let compare := counter_add max' base ((max' + 1) / 2)
    compare :: sleep_compares max' compare (remaining - (max' + 1) / 2)
  else if remaining > 0 then
    [counter_add max' base remaining]
  else
    []
termination_by remaining
decreasing_by
  omega

/-- `AlarmTimer::sleep` (src/adapters/alarm.rs lines 52-84), `AlwaysRunning`
mode.  `u64::try_from(duration.0).expect(..)` panics exactly when the signed
tick count is negative; the panic is modelled by `none`. -/
def sleep (max' : Nat) (base : Nat) (duration : Int) : Option (List Nat) :=
  match Int.toNat' duration with
  | some remaining => some (sleep_compares max' base remaining)
  | none => none

end AlarmTimer

/-! ## The Alarm multiplexer queue (src/alarm.rs) -/

/-- The subscription state machine values (src/alarm.rs lines 77-83). -/
inductive SubscriptionState where
  | pending_add
  | added
  | wakeable
  | completed
  | dropped
deriving DecidableEq, Repr

/-- A queued subscription: its remaining duration in ticks and its state.
`wakerId` identifies the stored waker so that waker invocations are
observable. -/
structure Subscription where
  remaining : Int
  state : SubscriptionState
  wakerId : Nat
deriving DecidableEq, Repr

namespace Alarm

/-- `VecDequeExt::get_insert_index` (src/alarm.rs lines 311-320): the number
of leading queue entries whose remaining duration is not greater than the
new one (iteration breaks at the first entry with `remaining < sub.remaining`). -/
def get_insert_index (q : List Int) (remaining : Int) : Nat :=
  match q with
  | [] => 0
  | x :: xs => if remaining < x then 0 else get_insert_index xs remaining + 1

/-- Enqueueing a new subscription (src/alarm.rs lines 277-279): insert at
the index computed by `get_insert_index`.  The queue is represented by the
list of remaining durations. -/
def insert_sub (q : List Int) (remaining : Int) : List Int :=
  List.insertIdx (get_insert_index q remaining) remaining q

/-- `Drop for SubscriptionGuard` (src/alarm.rs lines 147-153): abandoning
the handle stores `DROPPED` into the subscription state. -/
def drop_guard (s : Subscription) : Subscription :=
  { s with state := .dropped }

/-- The completion swap performed by the timer-fire pass on a subscription
whose remaining time reached zero (src/alarm.rs lines 198-212): swap the
state to `completed`; if the old state was `wakeable`, take and invoke the
waker (the returned flag); if it was `dropped`, store `dropped` back and do
not invoke anything. -/
def complete_swap (s : Subscription) : Subscription × Bool :=
  match s.state with
  | .wakeable => ({ s with state := .completed }, true)
  | .dropped => ({ s with state := .dropped }, false)
  | _ => ({ s with state := .completed }, false)

/-- One timer-fire pass of the multiplexer (the continuation in
`AlarmDrv::create_future`, src/alarm.rs lines 190-216): remove dropped
subscriptions, subtract the elapsed `duration` from every remaining time,
run the completion swap on those that reached zero, then retain only
subscriptions with time still remaining.  Returns the new queue and the
list of invoked waker ids. -/
def fire_pass (duration : Int) (subs : List Subscription) : List Subscription × List Nat :=
  let live := subs.filter (fun s => s.state ≠ .dropped)
  let stepped := live.map (fun s =>
    let s' : Subscription := { s with remaining := s.remaining - duration }
    if s'.remaining = 0 then complete_swap s' else (s', false))
  let woken := (stepped.filter (fun p => p.2)).map (fun p => p.1.wakerId)
  ((stepped.map (fun p => p.1)).filter (fun s => s.remaining > 0), woken)

end Alarm

/-! ## The Uptime driver (src/uptime_drv.rs)

`UptimeDrv::now` runs `sample`, which loops: read the counter (`cnt1`),
run `get_overflows`, read the counter again (`cnt2`), and accept the sample
when `cnt1 ≤ cnt2`, returning `overflows * PERIOD + cnt2`.

`get_overflows` (src/uptime_drv.rs lines 85-119) performs, in order:
fetch-add on the reentry level (remembering the prior level); read the
hardware overflow flag; if set: load `overflows_next`, store it into
`overflows`, clear the flag, set `overflows_next_pending`; otherwise load
`overflows`; then, if the prior level was 0 and the compare-and-swap of
`overflows_next_pending` from true to false succeeds, fetch-add 1 on
`overflows_next`; finally fetch-sub the level.

The machine below has one atomic step per atomic operation of that code.
Execution is single-CPU with nested interrupt preemption: in-flight calls
form a LIFO stack and only the innermost (most recent) call runs; a new
call may start, and the hardware counter may advance one tick (wrapping
past MAX to 0 and setting the overflow flag), between any two steps. -/

namespace Uptime

/-- The next atomic operation of an in-flight `now()` call. -/
inductive PC where
  /-- about to read `cnt1 = counter.value()` -/
  | cnt1
  /-- about to fetch-add the reentry level -/
  | enter
  /-- about to read the pending-overflow flag -/
  | flagChk
  /-- about to load `overflows_next` -/
  | loadNext
  /-- about to store into `overflows` -/
  | storeOvf
  /-- about to clear the pending-overflow flag -/
  | clearFlag
  /-- about to set `overflows_next_pending` -/
  | setPend
  /-- about to load `overflows` (flag was clear) -/
  | loadOvf
  /-- about to compare-and-swap `overflows_next_pending` -/
  | cas
  /-- about to fetch-add `overflows_next` (CAS succeeded at prior level 0) -/
  | incNext
  /-- about to fetch-sub the reentry level -/
  | exitLvl
  /-- about to read `cnt2 = counter.value()` and test `cnt1 ≤ cnt2` -/
  | cnt2
deriving DecidableEq, Repr

/-- One in-flight `now()` call: its next operation and its local variables
(`cnt1`, the prior reentry level, and the `overflows` value it will use). -/
structure Frame where
  pc : PC
  c1 : Nat
  prior : Nat
  res : Nat
deriving DecidableEq, Repr

/-- The whole system: hardware counter and overflow flag, the four shared
atomics of `UptimeDrv`, the LIFO stack of in-flight calls (innermost
first), and the values returned by completed calls (most recent first). -/
structure UState where
  counter : Nat
  flag : Bool
  ovf : Nat
  nxt : Nat
  pend : Bool
  level : Nat
  stack : List Frame
  trace : List Nat
deriving DecidableEq, Repr

/-- The events of an execution: a hardware tick, the start of a new
(possibly preempting) `now()` call, or one atomic step of the innermost
in-flight call. -/
inductive Event where
  | tick
  | start
  | step
deriving DecidableEq, Repr

/-- The fresh state of `UptimeDrv::new` (src/uptime_drv.rs lines 38-47):
`overflows = 0`, `overflows_next = 1`, `overflows_next_pending = false`,
reentry level 0, with the hardware counter at `c0`. -/
def init (c0 : Nat) : UState :=
  { counter := c0, flag := false, ovf := 0, nxt := 1, pend := false,
    level := 0, stack := [], trace := [] }

/-- One atomic step of the innermost in-flight call (`max'` is the
hardware `MAX`, `PERIOD = max' + 1`). -/
def exec (max' : Nat) (s : UState) (f : Frame) (rest : List Frame) : UState :=
  match f.pc with
  | .cnt1 => { s with stack := { f with pc := .enter, c1 := s.counter } :: rest }
  | .enter =>
    { s with level := s.level + 1, stack := { f with pc := .flagChk, prior := s.level } :: rest }
  | .flagChk =>
    { s with stack := { f with pc := if s.flag then .loadNext else .loadOvf } :: rest }
  | .loadNext => { s with stack := { f with pc := .storeOvf, res := s.nxt } :: rest }
  | .storeOvf => { s with ovf := f.res, stack := { f with pc := .clearFlag } :: rest }
  | .clearFlag => { s with flag := false, stack := { f with pc := .setPend } :: rest }
  | .setPend => { s with pend := true, stack := { f with pc := .cas } :: rest }
  | .loadOvf => { s with stack := { f with pc := .cas, res := s.ovf } :: rest }
  | .cas =>
    if f.prior = 0 ∧ s.pend then
      { s with pend := false, stack := { f with pc := .incNext } :: rest }
    else
      { s with stack := { f with pc := .exitLvl } :: rest }
  | .incNext => { s with nxt := s.nxt + 1, stack := { f with pc := .exitLvl } :: rest }
  | .exitLvl => { s with level := s.level - 1, stack := { f with pc := .cnt2 } :: rest }
  | .cnt2 =>
    if f.c1 ≤ s.counter then
      { s with stack := rest, trace := (f.res * (max' + 1) + s.counter) :: s.trace }
    else
      { s with stack := { f with pc := .cnt1 } :: rest }

/-- Apply one event.  A `tick` advances the hardware counter, wrapping past
`max'` to 0 and setting the overflow flag; a `start` pushes a new call; a
`step` runs one atomic operation of the innermost call (and is a no-op when
no call is in flight). -/
def stepEvent (max' : Nat) (s : UState) (e : Event) : UState :=
  match e with
  | .tick =>
    if s.counter ≥ max' then { s with counter := 0, flag := true }
    else { s with counter := s.counter + 1 }
  | .start => { s with stack := { pc := .cnt1, c1 := 0, prior := 0, res := 0 } :: s.stack }
  | .step =>
    match s.stack with
    | [] => s
    | f :: rest => exec max' s f rest

/-- Run a whole event schedule. -/
def run (max' : Nat) (s : UState) : List Event → UState
  | [] => s
  | e :: es => run max' (stepEvent max' s e) es

/-- A schedule is sequential (non-reentrant) when every call starts only
while no other call is in flight. -/
def seqOK (max' : Nat) (s : UState) : List Event → Bool
  | [] => true
  | e :: es =>
    (match e with
     | Event.start => s.stack.isEmpty
     | _ => true)
    && seqOK max' (stepEvent max' s e) es

/-- The trace property claimed for `now()`: every completed call returns a
value at least as large as every earlier-completed one (the trace is most
recent first). -/
def MonotoneTrace (trace : List Nat) : Prop :=
  List.Pairwise (fun a b => b ≤ a) trace

instance : DecidablePred MonotoneTrace := fun t =>
  inferInstanceAs (Decidable (List.Pairwise _ t))

/-- The events of one complete, uninterrupted `now()` call: the start and
enough steps to run either branch of `get_overflows` to completion (extra
steps are no-ops once the call has completed). -/
def callEvents : List Event :=
  [Event.start, Event.step, Event.step, Event.step, Event.step, Event.step, Event.step,
    Event.step, Event.step, Event.step, Event.step, Event.step]

/-- A schedule (for `MAX = 9`, initial counter 5) on which nested
preemption breaks monotonicity.  An outer call samples `cnt1 = 5` and runs
`get_overflows` (no overflow pending, so it keeps `overflows = 0`), then is
preempted just before its second counter read.  While it is suspended the
counter wraps (setting the overflow flag) and climbs back to 1; a
preempting call then observes the flag, commits `overflows = 1` and
completes returning `1 * PERIOD + 1 = 11`.  After five more ticks the
counter reaches 6 and the outer call resumes: its consistency check
`cnt1 ≤ cnt2` (5 ≤ 6) passes, so it completes returning the stale
`0 * PERIOD + 6 = 6 < 11`. -/
def nonMonotoneEvents : List Event :=
  [Event.start, Event.step, Event.step, Event.step, Event.step, Event.step, Event.step,
    Event.tick, Event.tick, Event.tick, Event.tick, Event.tick, Event.tick,
    Event.start, Event.step, Event.step, Event.step, Event.step, Event.step, Event.step,
    Event.step, Event.step, Event.step, Event.step, Event.step,
    Event.tick, Event.tick, Event.tick, Event.tick, Event.tick,
    Event.step]

/-- A schedule (for `MAX = 9`, initial counter 8) in which a nested call
preempts an outer call between the outer call's load of `overflows_next`
and its store into `overflows`, with the overflow flag pending: the nested
call observes the same pending flag.  Both commit and return the same
value `N = 1` loaded from `overflows_next` (both complete with
`1 * PERIOD + 0 = 10`), and `overflows_next` is advanced exactly once
(to 2), by the outer caller whose prior reentry level was 0. -/
def nestedSameNEvents : List Event :=
  [Event.tick, Event.tick,
    Event.start, Event.step, Event.step, Event.step, Event.step,
    Event.start, Event.step, Event.step, Event.step, Event.step, Event.step, Event.step,
    Event.step, Event.step, Event.step, Event.step,
    Event.step, Event.step, Event.step, Event.step, Event.step, Event.step, Event.step]

/-- A sequential schedule used as a witness: two complete calls with some
hardware ticks (including a wrap) in between. -/
def seqWitnessEvents : List Event :=
  callEvents
    ++ [Event.tick, Event.tick, Event.tick, Event.tick, Event.tick, Event.tick]
    ++ callEvents

/-- The most recent completed value (0 when none has completed yet). -/
def lastVal (s : UState) : Nat := s.trace.headD 0

/-- The between-calls relationship of the driver state: no commit is
half-done (`overflows_next_pending` is clear and `overflows_next` is one
ahead of `overflows`), and the most recently returned value is bounded by
the current committed time (`overflows * PERIOD + counter` while no
overflow is pending, one more period once one is pending). -/
def restFacts (max' : Nat) (s : UState) : Prop :=
  s.pend = false ∧ s.nxt = s.ovf + 1 ∧
  (s.flag = false → lastVal s ≤ s.ovf * (max' + 1) + s.counter) ∧
  (s.flag = true → lastVal s ≤ s.ovf * (max' + 1) + (max' + 1))

/-- The invariant of a single in-flight sequential call, by program point. -/
def frameInv (max' : Nat) (s : UState) (f : Frame) : Prop :=
  match f.pc with
  | .cnt1 => s.level = 0 ∧ restFacts max' s
  | .enter => s.level = 0 ∧ s.pend = false ∧ s.nxt = s.ovf + 1 ∧ f.c1 ≤ max' ∧
      (s.flag = false → lastVal s ≤ s.ovf * (max' + 1) + f.c1 ∧ f.c1 ≤ s.counter) ∧
      (s.flag = true → lastVal s ≤ s.ovf * (max' + 1) + (max' + 1))
  | .flagChk => s.level = 1 ∧ f.prior = 0 ∧ s.pend = false ∧ s.nxt = s.ovf + 1 ∧ f.c1 ≤ max' ∧
      (s.flag = false → lastVal s ≤ s.ovf * (max' + 1) + f.c1 ∧ f.c1 ≤ s.counter) ∧
      (s.flag = true → lastVal s ≤ s.ovf * (max' + 1) + (max' + 1))
  | .loadNext => s.level = 1 ∧ f.prior = 0 ∧ s.pend = false ∧ s.nxt = s.ovf + 1 ∧
      lastVal s ≤ s.ovf * (max' + 1) + (max' + 1)
  | .storeOvf => s.level = 1 ∧ f.prior = 0 ∧ s.pend = false ∧ s.nxt = s.ovf + 1 ∧
      f.res = s.nxt ∧ lastVal s ≤ s.ovf * (max' + 1) + (max' + 1)
  | .clearFlag => s.level = 1 ∧ f.prior = 0 ∧ s.pend = false ∧ f.res = s.nxt ∧ s.nxt = s.ovf ∧
      lastVal s ≤ s.ovf * (max' + 1)
  | .setPend => s.level = 1 ∧ f.prior = 0 ∧ s.pend = false ∧ f.res = s.nxt ∧ s.nxt = s.ovf ∧
      lastVal s ≤ s.ovf * (max' + 1)
  | .loadOvf => s.level = 1 ∧ f.prior = 0 ∧ s.pend = false ∧ s.nxt = s.ovf + 1 ∧ f.c1 ≤ max' ∧
      lastVal s ≤ s.ovf * (max' + 1) + f.c1 ∧ (s.flag = false → f.c1 ≤ s.counter)
  | .cas => s.level = 1 ∧ f.prior = 0 ∧
      ((s.pend = true ∧ f.res = s.nxt ∧ s.nxt = s.ovf ∧ lastVal s ≤ s.ovf * (max' + 1)) ∨
        (s.pend = false ∧ s.nxt = s.ovf + 1 ∧ f.res = s.ovf ∧ f.c1 ≤ max' ∧
          lastVal s ≤ s.ovf * (max' + 1) + f.c1 ∧ (s.flag = false → f.c1 ≤ s.counter)))
  | .incNext => s.level = 1 ∧ f.prior = 0 ∧ s.pend = false ∧ f.res = s.nxt ∧ s.nxt = s.ovf ∧
      lastVal s ≤ s.ovf * (max' + 1)
  | .exitLvl => s.level = 1 ∧ f.prior = 0 ∧ s.pend = false ∧ s.nxt = s.ovf + 1 ∧ f.res = s.ovf ∧
      (lastVal s ≤ s.ovf * (max' + 1) ∨
        (f.c1 ≤ max' ∧ lastVal s ≤ s.ovf * (max' + 1) + f.c1 ∧ (s.flag = false → f.c1 ≤ s.counter)))
  | .cnt2 => s.level = 0 ∧ s.pend = false ∧ s.nxt = s.ovf + 1 ∧ f.res = s.ovf ∧
      (lastVal s ≤ s.ovf * (max' + 1) ∨
        (f.c1 ≤ max' ∧ lastVal s ≤ s.ovf * (max' + 1) + f.c1 ∧ (s.flag = false → f.c1 ≤ s.counter)))

/-- The inductive invariant for sequential (non-reentrant) executions:
the hardware counter is in range, all completed values are monotone, and
at most one call is in flight, in a state described by `frameInv`. -/
def Inv (max' : Nat) (s : UState) : Prop :=
  s.counter ≤ max' ∧ MonotoneTrace s.trace ∧
  match s.stack with
  | [] => s.level = 0 ∧ restFacts max' s
  | [f] => frameInv max' s f
  | _ => False

end Uptime

/-! ## Theorems -/

/-- C2: For `AlarmTimer::sleep` in `AlwaysRunning` mode with `MAX = 9`
(`PERIOD = 10`, `HALF_PERIOD = 5`) and base counter 4, the compare values
programmed to the hardware are `[3]` for a sleep of 9 ticks, `[9, 4]` for
10 ticks, and `[9, 4, 9, 5]` for 21 ticks. -/
theorem alarm_sleep_compare_sequences :
    AlarmTimer.sleep 9 4 9 = some [3] ∧
    AlarmTimer.sleep 9 4 10 = some [9, 4] ∧
    AlarmTimer.sleep 9 4 21 = some [9, 4, 9, 5] := by
  refine ⟨?_, ?_, ?_⟩ <;>
    simp [AlarmTimer.sleep, Int.toNat', AlarmTimer.sleep_compares, AlarmTimer.counter_add]

/-- C8: `AlarmTimer::sleep` fails (the `expect` on the signed-to-unsigned
conversion of the duration panics) exactly when the requested duration is
negative, and the conversion succeeds for every non-negative duration. -/
theorem alarm_sleep_rejects_negative :
    ∀ (max' base : Nat) (duration : Int),
      AlarmTimer.sleep max' base duration = none ↔ duration < 0 := by
  intro max' base d
  cases d with
  | ofNat n =>
    constructor
    · intro h
      simp [AlarmTimer.sleep, Int.toNat'] at h
    · intro h
      exact absurd h (Int.not_lt.mpr (Int.ofNat_nonneg n))
  | negSucc n =>
    constructor
    · intro _
      exact Int.negSucc_lt_zero n
    · intro _
      rfl

/-- C10: `TimeSpan::parts` does not always return normalized components:
for 32767 ticks at `FREQ = 32768` the sub-second remainder rounds to the
nearest millisecond as 1000, which lies outside the `-1000 < millis < 1000`
range asserted by `from_parts`, so `parts` followed by `from_parts` fails
(panics) on this in-range input. -/
theorem timespan_parts_unnormalized_millis :
    (TimeSpan.parts 32768 32767).millis = 1000 ∧
    TimeSpan.from_parts 32768 (TimeSpan.parts 32768 32767) = none := by
  constructor
  · decide
  · decide

theorem get_insert_index_le_length (q : List Int) (r : Int) :
    Alarm.get_insert_index q r ≤ q.length := by
  induction q with
  | nil => simp [Alarm.get_insert_index]
  | cons x xs ih =>
    simp only [Alarm.get_insert_index, List.length_cons]
    split
    · omega
    · omega

theorem get_insert_index_iff (q : List Int) (r : Int) (hs : List.Pairwise (· ≤ ·) q) :
    ∀ (j : Nat) (hj : j < q.length),
      (q.get ⟨j, hj⟩ ≤ r ↔ j < Alarm.get_insert_index q r) := by
  induction q with
  | nil =>
    intro j hj
    exact absurd hj (Nat.not_lt_zero j)
  | cons x xs ih =>
    intro j hj
    rcases List.pairwise_cons.mp hs with ⟨hx, hxs⟩
    cases j with
    | zero =>
      have hget : (x :: xs).get ⟨0, hj⟩ = x := rfl
      rw [hget]
      simp only [Alarm.get_insert_index]
      by_cases hrx : r < x
      · simp only [if_pos hrx]
        constructor
        · intro h
          omega
        · intro h
          omega
      · simp only [if_neg hrx]
        constructor
        · intro _
          omega
        · intro _
          omega
    | succ j =>
      have hj' : j < xs.length := by simpa using hj
      have hiff := ih hxs j hj'
      have hget : (x :: xs).get ⟨j + 1, hj⟩ = xs.get ⟨j, hj'⟩ := rfl
      rw [hget]
      simp only [Alarm.get_insert_index]
      by_cases hrx : r < x
      · simp only [if_pos hrx]
        have hxj : x ≤ xs.get ⟨j, hj'⟩ := hx _ (xs.get_mem j hj')
        constructor
        · intro h
          omega
        · intro h
          omega
      · simp only [if_neg hrx]
        omega

theorem insert_sub_sorted (q : List Int) (r : Int) (hs : List.Pairwise (· ≤ ·) q) :
    List.Pairwise (· ≤ ·) (Alarm.insert_sub q r) := by
  induction q with
  | nil => simp [Alarm.insert_sub, Alarm.get_insert_index]
  | cons x xs ih =>
    rcases List.pairwise_cons.mp hs with ⟨hx, hxs⟩
    by_cases hrx : r < x
    · have : Alarm.insert_sub (x :: xs) r = r :: x :: xs := by
        simp [Alarm.insert_sub, Alarm.get_insert_index, hrx]
      rw [this]
      refine List.pairwise_cons.mpr ⟨?_, hs⟩
      intro y hy
      rcases List.mem_cons.mp hy with h | h
      · omega
      · have := hx y h
        omega
    · have : Alarm.insert_sub (x :: xs) r = x :: Alarm.insert_sub xs r := by
        simp [Alarm.insert_sub, Alarm.get_insert_index, hrx]
      rw [this]
      refine List.pairwise_cons.mpr ⟨?_, ih hxs⟩
      intro y hy
      rcases (List.mem_insertIdx (get_insert_index_le_length xs r)).mp hy with h | h
      · omega
      · exact hx y h

/-- C5: The subscription queue stays ordered by remaining duration: an
element of a sorted queue is at most the new duration exactly when it sits
before the computed insertion index (so the new subscription lands after
every entry with remaining ≤ its own, preserving insertion order among
equals), insertion at that index keeps the queue sorted, and enqueueing
durations 2, 1, 3 yields the queue [1, 2, 3], the completion order. -/
theorem alarm_queue_insert_ordered :
    (∀ (q : List Int) (r : Int), List.Pairwise (· ≤ ·) q →
      ∀ (j : Nat) (hj : j < q.length),
        (q.get ⟨j, hj⟩ ≤ r ↔ j < Alarm.get_insert_index q r)) ∧
    (∀ (q : List Int) (r : Int), List.Pairwise (· ≤ ·) q →
      List.Pairwise (· ≤ ·) (Alarm.insert_sub q r)) ∧
    Alarm.insert_sub (Alarm.insert_sub (Alarm.insert_sub [] 2) 1) 3 = [1, 2, 3] := by
  refine ⟨?_, ?_, ?_⟩
  · intro q r hs
    exact get_insert_index_iff q r hs
  · intro q r hs
    exact insert_sub_sorted q r hs
  · decide

/-- C5 witness: the insertion-index characterization and sortedness at the
concrete sorted queue [1, 3] with new duration 2. -/
theorem alarm_queue_insert_ordered_witness :
    List.Pairwise (· ≤ ·) ([1, 3] : List Int) ∧
    (((1 : Int) ≤ 2 ↔ 0 < Alarm.get_insert_index [1, 3] 2) ∧
      ((3 : Int) ≤ 2 ↔ 1 < Alarm.get_insert_index [1, 3] 2)) ∧
    List.Pairwise (· ≤ ·) (Alarm.insert_sub [1, 3] 2) := by
  refine ⟨by decide, ⟨?_, ?_⟩, ?_⟩
  · exact alarm_queue_insert_ordered.1 [1, 3] 2 (by decide) 0 (by decide)
  · exact alarm_queue_insert_ordered.1 [1, 3] 2 (by decide) 1 (by decide)
  · exact alarm_queue_insert_ordered.2.1 [1, 3] 2 (by decide)

theorem fire_pass_woken_spec (d : Int) (subs : List Subscription) :
    (Alarm.fire_pass d subs).2 =
      (subs.filter (fun s => s.state = SubscriptionState.wakeable ∧ s.remaining - d = 0)).map
        (fun s => s.wakerId) := by
  simp only [Alarm.fire_pass]
  rw [List.filter_map, List.map_map, List.filter_filter]
  rw [List.filter_congr (q := fun s =>
    decide (s.state = SubscriptionState.wakeable ∧ s.remaining - d = 0)) ?_]
  · apply List.map_congr_left
    intro s hs
    rcases List.mem_filter.mp hs with ⟨_, hcond⟩
    rcases s with ⟨rem, st, wid⟩
    by_cases hz : rem - d = 0 <;> cases st <;> simp [Alarm.complete_swap, hz]
  · intro s _
    rcases s with ⟨rem, st, wid⟩
    by_cases hz : rem - d = 0 <;> cases st <;> simp [Alarm.complete_swap, hz]

theorem fire_pass_no_dropped (d : Int) (subs : List Subscription) :
    ∀ t ∈ (Alarm.fire_pass d subs).1, t.state ≠ SubscriptionState.dropped := by
  intro t ht
  simp only [Alarm.fire_pass] at ht
  rcases List.mem_filter.mp ht with ⟨ht1, _⟩
  rcases List.mem_map.mp ht1 with ⟨p, hp, rfl⟩
  rcases List.mem_map.mp hp with ⟨u, hu, rfl⟩
  rcases List.mem_filter.mp hu with ⟨_, hnd⟩
  rcases u with ⟨rem, st, wid⟩
  by_cases hz : rem - d = 0 <;> cases st <;> simp_all [Alarm.complete_swap, hz]

/-- C6: A subscription whose handle is dropped before completion has its
state set to `Dropped` (`drop_guard`) and never has its waker invoked: the
timer-fire completion swap restores `Dropped` without invoking the stored
waker, only wakers of `Wakeable` subscriptions that reached zero are ever
invoked by a pass, and no dropped subscription survives the next
multiplexer pass. -/
theorem alarm_dropped_subscription :
    (∀ s : Subscription, (Alarm.drop_guard s).state = SubscriptionState.dropped) ∧
    (∀ s : Subscription, s.state = SubscriptionState.dropped →
      Alarm.complete_swap s = (s, false)) ∧
    (∀ (d : Int) (subs : List Subscription),
      (Alarm.fire_pass d subs).2 =
        (subs.filter (fun s => s.state = SubscriptionState.wakeable ∧ s.remaining - d = 0)).map
          (fun s => s.wakerId)) ∧
    (∀ (d : Int) (subs : List Subscription),
      ∀ t ∈ (Alarm.fire_pass d subs).1, t.state ≠ SubscriptionState.dropped) := by
  refine ⟨?_, ?_, fire_pass_woken_spec, fire_pass_no_dropped⟩
  · intro s
    rfl
  · intro s hs
    cases s with
    | mk rem st wid =>
      cases st with
      | dropped => rfl
      | pending_add => exact absurd hs (by simp)
      | added => exact absurd hs (by simp)
      | wakeable => exact absurd hs (by simp)
      | completed => exact absurd hs (by simp)

/-- C6 witness: a dropped subscription due now is restored to `Dropped`
with no waker call, and a pass over a queue holding a dropped subscription
evicts it and wakes only the wakeable subscription that reached zero. -/
theorem alarm_dropped_subscription_witness :
    Alarm.complete_swap { remaining := 0, state := SubscriptionState.dropped, wakerId := 7 } =
      ({ remaining := 0, state := SubscriptionState.dropped, wakerId := 7 }, false) ∧
    (Alarm.fire_pass 1
        [{ remaining := 2, state := SubscriptionState.dropped, wakerId := 7 },
          { remaining := 1, state := SubscriptionState.wakeable, wakerId := 8 }]).2 = [8] ∧
    ∀ t ∈ (Alarm.fire_pass 1
        [{ remaining := 2, state := SubscriptionState.dropped, wakerId := 7 },
          { remaining := 1, state := SubscriptionState.wakeable, wakerId := 8 }]).1,
      t.state ≠ SubscriptionState.dropped := by
  refine ⟨?_, ?_, ?_⟩
  · exact alarm_dropped_subscription.2.1 _ rfl
  · rw [alarm_dropped_subscription.2.2.1 1 _]
    decide
  · exact alarm_dropped_subscription.2.2.2 1 _

/-- C7: With an anchor `(dt, t0)` installed, `Watch::at t` returns
`Ok (dt + (t - t0))` when `t ≥ t0` and `Ok (dt - (t0 - t))` otherwise;
without an anchor, `Watch::at` and `Watch::now` return the not-set error
(modelled by `none`). -/
theorem watch_at_anchor :
    ∀ (freq : Int) (dt : Nat) (t0 t u : Int),
      (t0 ≤ t → Watch.at' freq (some (dt, t0)) t = some (Watch.dt_add freq dt (t - t0))) ∧
      (t < t0 → Watch.at' freq (some (dt, t0)) t = some (Watch.dt_sub freq dt (t0 - t))) ∧
      Watch.at' freq none t = none ∧
      Watch.now freq none u = none := by
  intro freq dt t0 t u
  refine ⟨?_, ?_, rfl, rfl⟩
  · intro h
    rcases lt_or_eq_of_le h with hlt | heq
    · simp [Watch.at', hlt]
    · subst heq
      have hnot : ¬ (t0 > t0) := lt_irrefl t0
      simp [Watch.at', hnot, Watch.dt_add, Watch.dt_sub, Watch.total_seconds]
  · intro h
    have hnot : ¬ (t > t0) := by omega
    simp [Watch.at', hnot]

theorem mono_head_le (t : List Nat) (h : Uptime.MonotoneTrace t) :
    ∀ x ∈ t, x ≤ t.headD 0 := by
  cases t with
  | nil =>
    intro x hx
    exact absurd hx (List.not_mem_nil x)
  | cons a t' =>
    intro x hx
    rcases List.mem_cons.mp hx with rfl | hx'
    · simp
    · simpa using (List.pairwise_cons.mp h).1 x hx'

theorem inv_init (max' c0 : Nat) (h : c0 ≤ max') : Uptime.Inv max' (Uptime.init c0) := by
  refine ⟨h, List.Pairwise.nil, rfl, rfl, rfl, ?_, ?_⟩
  · intro _
    exact Nat.zero_le _
  · intro hf
    exact absurd hf Bool.false_ne_true

theorem inv_step (max' : Nat) (s : Uptime.UState) (e : Uptime.Event)
    (hInv : Uptime.Inv max' s) (hseq : e = Uptime.Event.start → s.stack = []) :
    Uptime.Inv max' (Uptime.stepEvent max' s e) := by
  obtain ⟨hcnt, hmono, hstk⟩ := hInv
  obtain ⟨cnt, flg, ovf, nxt, pnd, lvl, stk, tr⟩ := s
  simp only at hcnt hmono hstk hseq
  cases e with
  | start =>
    have hempty : stk = [] := by simpa using hseq rfl
    subst hempty
    exact ⟨hcnt, hmono, hstk⟩
  | tick =>
    simp only [Uptime.stepEvent]
    by_cases hge : cnt ≥ max'
    · rw [if_pos hge]
      have hcm : cnt = max' := le_antisymm hcnt hge
      subst hcm
      refine ⟨Nat.zero_le _, hmono, ?_⟩
      rcases stk with _ | ⟨⟨pc, c1, prior, res⟩, rest⟩
      · simp only [Uptime.frameInv, Uptime.restFacts, Uptime.lastVal] at hstk ⊢
        cases flg <;> simp_all <;> omega
      · rcases rest with _ | ⟨g, rest'⟩
        · cases pc <;>
            simp only [Uptime.frameInv, Uptime.restFacts, Uptime.lastVal] at hstk ⊢ <;>
            cases flg <;> cases pnd <;> simp_all <;> omega
        · exact hstk.elim
    · rw [if_neg hge]
      refine ⟨show cnt + 1 ≤ max' by omega, hmono, ?_⟩
      rcases stk with _ | ⟨⟨pc, c1, prior, res⟩, rest⟩
      · simp only [Uptime.frameInv, Uptime.restFacts, Uptime.lastVal] at hstk ⊢
        cases flg <;> simp_all <;> omega
      · rcases rest with _ | ⟨g, rest'⟩
        · cases pc <;>
            simp only [Uptime.frameInv, Uptime.restFacts, Uptime.lastVal] at hstk ⊢ <;>
            cases flg <;> cases pnd <;> simp_all <;> omega
        · exact hstk.elim
  | step =>
    rcases stk with _ | ⟨⟨pc, c1, prior, res⟩, rest⟩
    · exact ⟨hcnt, hmono, hstk⟩
    · rcases rest with _ | ⟨g, rest'⟩
      · cases pc
        case cas =>
          simp only [Uptime.frameInv] at hstk
          obtain ⟨hlvl, hprior, hdisj⟩ := hstk
          subst hprior
          simp only [Uptime.stepEvent, Uptime.exec]
          split
          case isTrue hc =>
            have hpnd : pnd = true := hc.2
            rcases hdisj with ⟨_, hres, hnxt, hL⟩ | ⟨hbad, _⟩
            · exact ⟨hcnt, hmono, hlvl, rfl, rfl, hres, hnxt, hL⟩
            · rw [hpnd] at hbad
              exact Bool.noConfusion hbad
          case isFalse hc =>
            have hpnd : pnd = false := by
              cases pnd
              · rfl
              · exact absurd (by simp) hc
            rcases hdisj with ⟨hbad, _⟩ | ⟨_, hnxt, hres, hc1m, hL, hflag⟩
            · rw [hpnd] at hbad
              exact Bool.noConfusion hbad
            · exact ⟨hcnt, hmono, hlvl, rfl, hpnd, hnxt, hres, Or.inr ⟨hc1m, hL, hflag⟩⟩
        case cnt2 =>
          simp only [Uptime.stepEvent, Uptime.exec]
          by_cases hle : c1 ≤ cnt
          · rw [if_pos hle]
            simp only [Uptime.frameInv, Uptime.lastVal] at hstk
            obtain ⟨hlvl, hpnd, hnxt, hres, hdisj⟩ := hstk
            subst hres
            refine ⟨hcnt, ?_, ?_⟩
            · refine List.pairwise_cons.mpr ⟨?_, hmono⟩
              intro x hx
              have hxle := mono_head_le tr hmono x hx
              rcases hdisj with h1 | ⟨hc1m, h2, h3⟩ <;> omega
            · simp only [Uptime.restFacts, Uptime.lastVal]
              refine ⟨hlvl, hpnd, hnxt, ?_, ?_⟩
              · intro _
                simp
              · intro _
                simp only [List.headD_cons]
                omega
          · rw [if_neg hle]
            refine ⟨hcnt, hmono, ?_⟩
            simp only [Uptime.frameInv, Uptime.restFacts, Uptime.lastVal] at hstk ⊢
            cases flg <;> simp_all <;> omega
        all_goals (
          refine ⟨hcnt, hmono, ?_⟩
          simp only [Uptime.stepEvent, Uptime.exec, Uptime.frameInv, Uptime.restFacts,
            Uptime.lastVal] at hstk ⊢
          cases flg <;> cases pnd <;> simp_all [Nat.succ_mul] <;> omega)
      · exact hstk.elim

theorem inv_run (max' : Nat) :
    ∀ (evs : List Uptime.Event) (s : Uptime.UState),
      Uptime.Inv max' s → Uptime.seqOK max' s evs = true →
      Uptime.Inv max' (Uptime.run max' s evs) := by
  intro evs
  induction evs with
  | nil =>
    intro s h _
    exact h
  | cons e es ih =>
    intro s h hseq
    simp only [Uptime.seqOK, Bool.and_eq_true] at hseq
    refine ih _ (inv_step max' s e h ?_) hseq.2
    intro he
    subst he
    simpa using hseq.1

/-- C1 (amended): For every sequence of non-overlapping (sequentially
executed, non-reentrant) `now()` calls — every call starts only when no
other call is in flight, while hardware ticks, including wraps that set
the overflow flag, may still be interleaved between any two atomic steps —
each value returned by `now()` is greater than or equal to every value
returned by any earlier-completed `now()` call, for every hardware size
`MAX` and initial counter value. -/
theorem uptime_now_monotone_sequential :
    ∀ (max' c0 : Nat) (evs : List Uptime.Event), c0 ≤ max' →
      Uptime.seqOK max' (Uptime.init c0) evs = true →
      Uptime.MonotoneTrace ((Uptime.run max' (Uptime.init c0) evs).trace) := by
  intro max' c0 evs hc hseq
  exact (inv_run max' evs (Uptime.init c0) (inv_init max' c0 hc) hseq).2.1

/-- C1 (amended) witness: two sequential calls with a counter wrap between
them; the completed values are monotone. -/
theorem uptime_now_monotone_sequential_witness :
    5 ≤ 9 ∧ Uptime.seqOK 9 (Uptime.init 5) Uptime.seqWitnessEvents = true ∧
    Uptime.MonotoneTrace ((Uptime.run 9 (Uptime.init 5) Uptime.seqWitnessEvents).trace) :=
  ⟨by decide, by decide, uptime_now_monotone_sequential 9 5 Uptime.seqWitnessEvents
    (by decide) (by decide)⟩

/-- C3: In a non-reentrant call with `k` overflows observed so far
(`overflows = k`, `overflows_next = k + 1`, no commit half-done), the
hardware counter steady at `c ∈ [0, MAX]` (so no wrap occurs between the
two counter samples), `now()` returns `k * PERIOD + c`; in particular
counter 0 with no overflow observed gives 0 and counter `MAX` gives `MAX`
(the cases `k = 0`, `c = 0` and `k = 0`, `c = MAX`).  After a wrap to 0
with the overflow flag pending, the first call returns `PERIOD`. -/
theorem uptime_now_value :
    (∀ (max' k c : Nat), c ≤ max' →
      (Uptime.run max'
        { counter := c, flag := false, ovf := k, nxt := k + 1, pend := false,
          level := 0, stack := [], trace := [] }
        Uptime.callEvents).trace = [k * (max' + 1) + c]) ∧
    (∀ max' : Nat,
      (Uptime.run max'
        { counter := 0, flag := true, ovf := 0, nxt := 1, pend := false,
          level := 0, stack := [], trace := [] }
        Uptime.callEvents).trace = [max' + 1]) := by
  constructor
  · intro max' k c hc
    simp [Uptime.callEvents, Uptime.run, Uptime.stepEvent, Uptime.exec]
  · intro max'
    simp [Uptime.callEvents, Uptime.run, Uptime.stepEvent, Uptime.exec]

/-- C3 witness: `MAX = 9`, 3 overflows observed, counter at 7: the call
returns `3 * 10 + 7 = 37`. -/
theorem uptime_now_value_witness :
    7 ≤ 9 ∧
    (Uptime.run 9
      { counter := 7, flag := false, ovf := 3, nxt := 4, pend := false,
        level := 0, stack := [], trace := [] }
      Uptime.callEvents).trace = [3 * (9 + 1) + 7] := by
  exact ⟨by omega, uptime_now_value.1 9 3 7 (by omega)⟩

/-- C4: In the LIFO-preemption machine, a nested reentrant call that
observes the same pending overflow flag as an in-flight outer call (here:
the outer call is preempted between its load of `overflows_next` and its
store to `overflows`) commits and returns the same value `N = 1` loaded
from `overflows_next` (both calls return `1 * PERIOD + 0 = 10`), and
`overflows_next` ends at 2, advanced exactly once.  Moreover
`overflows_next` can change only by exactly 1 and only at an `incNext`
step, and from the compare-and-swap a call reaches `incNext` exactly when
its prior reentry level was 0 and `overflows_next_pending` was true, the
CAS then clearing the pending flag. -/
theorem uptime_overflows_next_single_advance :
    (Uptime.run 9 (Uptime.init 8) Uptime.nestedSameNEvents =
      { counter := 0, flag := false, ovf := 1, nxt := 2, pend := false,
        level := 0, stack := [], trace := [10, 10] }) ∧
    (∀ (max' : Nat) (s : Uptime.UState) (e : Uptime.Event),
      (Uptime.stepEvent max' s e).nxt ≠ s.nxt →
        (Uptime.stepEvent max' s e).nxt = s.nxt + 1 ∧ e = Uptime.Event.step ∧
          ∃ f rest, s.stack = f :: rest ∧ f.pc = Uptime.PC.incNext) ∧
    (∀ (max' : Nat) (s : Uptime.UState) (f : Uptime.Frame) (rest : List Uptime.Frame),
      s.stack = f :: rest → f.pc = Uptime.PC.cas →
        (((Uptime.stepEvent max' s Uptime.Event.step).stack.head?.map Uptime.Frame.pc =
            some Uptime.PC.incNext) ↔ (f.prior = 0 ∧ s.pend = true)) ∧
        (f.prior = 0 ∧ s.pend = true →
          (Uptime.stepEvent max' s Uptime.Event.step).pend = false)) := by
  refine ⟨rfl, ?_, ?_⟩
  · intro max' s e h
    cases e with
    | tick =>
      simp only [Uptime.stepEvent] at h
      split at h <;> exact absurd rfl h
    | start => exact absurd rfl h
    | step =>
      rcases hstack : s.stack with _ | ⟨⟨pc, c1, prior, res⟩, rest⟩
      · simp only [Uptime.stepEvent, hstack] at h
        exact absurd rfl h
      · simp only [Uptime.stepEvent, hstack] at h ⊢
        cases pc <;>
          first
          | (exact ⟨rfl, trivial, _, rest, rfl, rfl⟩)
          | (simp only [Uptime.exec] at h; exact absurd rfl h)
          | (simp only [Uptime.exec] at h; split at h <;> exact absurd rfl h)
  · intro max' s f rest hstack hpc
    rcases f with ⟨pc, c1, prior, res⟩
    simp only at hpc
    subst hpc
    simp only [Uptime.stepEvent, hstack, Uptime.exec]
    constructor
    · by_cases hcond : prior = 0 ∧ s.pend = true
      · rw [if_pos hcond]
        exact ⟨fun _ => hcond, fun _ => rfl⟩
      · rw [if_neg hcond]
        constructor
        · intro hbad
          simp at hbad
        · intro hgood
          exact absurd hgood hcond
    · intro hgood
      rw [if_pos hgood]

/-- C4 witness: instantiating the two general parts at the state reached
just before the outer call's CAS in the nested schedule. -/
theorem uptime_overflows_next_single_advance_witness :
    (Uptime.stepEvent 9
        { counter := 0, flag := false, ovf := 1, nxt := 1, pend := true, level := 1,
          stack := [{ pc := Uptime.PC.incNext, c1 := 0, prior := 0, res := 1 }],
          trace := [10] } Uptime.Event.step).nxt = 1 + 1 ∧
    (((Uptime.stepEvent 9
        { counter := 0, flag := false, ovf := 1, nxt := 1, pend := true, level := 1,
          stack := [{ pc := Uptime.PC.cas, c1 := 0, prior := 0, res := 1 }],
          trace := [10] } Uptime.Event.step).stack.head?.map Uptime.Frame.pc =
      some Uptime.PC.incNext) ↔ ((0 : Nat) = 0 ∧ true = true)) := by
  constructor
  · exact (uptime_overflows_next_single_advance.2.1 9
      { counter := 0, flag := false, ovf := 1, nxt := 1, pend := true, level := 1,
        stack := [{ pc := Uptime.PC.incNext, c1 := 0, prior := 0, res := 1 }],
        trace := [10] } Uptime.Event.step (by decide)).1
  · exact (uptime_overflows_next_single_advance.2.2 9
      { counter := 0, flag := false, ovf := 1, nxt := 1, pend := true, level := 1,
        stack := [{ pc := Uptime.PC.cas, c1 := 0, prior := 0, res := 1 }],
        trace := [10] }
      { pc := Uptime.PC.cas, c1 := 0, prior := 0, res := 1 } [] rfl rfl).1

/-- C1 (as stated, refuted): it is not the case that, for every hardware
size, initial counter and event schedule (with nested preempting calls
interleaved at any point and the counter wrapping past MAX setting the
overflow flag), every completed `now()` value is at least every
earlier-completed one.  On `nonMonotoneEvents` a preempted outer call
completes with 6 after a nested call already completed with 11. -/
theorem uptime_now_not_monotone_under_preemption :
    ¬ (∀ (max' c0 : Nat) (evs : List Uptime.Event), c0 ≤ max' →
        Uptime.MonotoneTrace ((Uptime.run max' (Uptime.init c0) evs).trace)) := by
  intro h
  have h9 := h 9 5 Uptime.nonMonotoneEvents (by omega)
  have htr : (Uptime.run 9 (Uptime.init 5) Uptime.nonMonotoneEvents).trace = [6, 11] := rfl
  rw [htr] at h9
  have h11 : (11 : Nat) ≤ 6 := (List.pairwise_cons.mp h9).1 11 (by simp)
  omega

theorem month_from_u8_num (m : Month) : Month.from_u8 m.num = m := by
  cases m <;> rfl

theorem month_num_pos (m : Month) : 1 ≤ m.num := by
  cases m <;> simp [Month.num]

theorem month_num_le (m : Month) : m.num ≤ 12 := by
  cases m <;> simp [Month.num]

theorem days_in_month_pos (year : Nat) (m : Month) : 1 ≤ days_in_month year m := by
  rcases h : is_leap_year year <;> cases m <;> simp [days_in_month, h]

theorem days_in_year_pos (year : Nat) : 1 ≤ days_in_year year := by
  rcases h : is_leap_year year <;> simp [days_in_year, h]

set_option maxRecDepth 4096 in
theorem month_days_bound (year : Nat) (m : Month) :
    DateTime.days_before_month year m.num + days_in_month year m ≤ days_in_year year := by
  rcases h : is_leap_year year <;> cases m <;>
    simp [DateTime.days_before_month, days_in_month, days_in_year, Month.num, Month.from_u8, h]

theorem secs_before_years_succ (y0 : Nat) :
    ∀ n, DateTime.secs_before_years y0 (n + 1) =
      DateTime.secs_before_years y0 n + days_in_year (y0 + n) * 86400 := by
  intro n
  induction n generalizing y0 with
  | zero => simp [DateTime.secs_before_years]
  | succ n ih =>
    rw [DateTime.secs_before_years, ih (y0 + 1), DateTime.secs_before_years]
    have : y0 + 1 + n = y0 + (n + 1) := by omega
    rw [this]
    omega

theorem days_before_year_mul (n : Nat) :
    DateTime.days_before_year n * 86400 = DateTime.secs_before_years 1970 n := by
  induction n with
  | zero => rfl
  | succ n ih =>
    rw [DateTime.days_before_year, secs_before_years_succ, Nat.add_mul, ih]

theorem secs_before_years_ge (y0 : Nat) : ∀ n, n ≤ DateTime.secs_before_years y0 n := by
  intro n
  induction n generalizing y0 with
  | zero => exact Nat.le_refl 0
  | succ n ih =>
    rw [DateTime.secs_before_years]
    have h1 := ih (y0 + 1)
    have h2 := days_in_year_pos y0
    omega

theorem year_loop_eq (n : Nat) :
    ∀ (y0 fuel s : Nat), n < fuel → s < days_in_year (y0 + n) * 86400 →
      DateTime.year_loop fuel y0 (DateTime.secs_before_years y0 n + s) = (y0 + n, s) := by
  induction n with
  | zero =>
    intro y0 fuel s hfuel hs
    rcases fuel with _ | fuel
    · omega
    · rw [DateTime.year_loop]
      rw [if_neg (by simpa [DateTime.secs_before_years] using hs)]
      simp [DateTime.secs_before_years]
  | succ n ih =>
    intro y0 fuel s hfuel hs
    rcases fuel with _ | fuel
    · omega
    · rw [DateTime.year_loop, DateTime.secs_before_years]
      rw [if_pos (by omega)]
      have harg : days_in_year y0 * 86400 + DateTime.secs_before_years (y0 + 1) n + s -
          days_in_year y0 * 86400 = DateTime.secs_before_years (y0 + 1) n + s := by omega
      rw [harg]
      have hs' : s < days_in_year (y0 + 1 + n) * 86400 := by
        have : y0 + 1 + n = y0 + (n + 1) := by omega
        rw [this]
        exact hs
      rw [ih (y0 + 1) fuel s (by omega) hs']
      have : y0 + 1 + n = y0 + (n + 1) := by omega
      rw [this]

theorem secs_before_months_succ (year : Nat) :
    ∀ n m0, DateTime.secs_before_months year m0 (n + 1) =
      DateTime.secs_before_months year m0 n +
        days_in_month year (Month.from_u8 (m0 + n)) * 86400 := by
  intro n
  induction n with
  | zero =>
    intro m0
    simp [DateTime.secs_before_months]
  | succ n ih =>
    intro m0
    rw [DateTime.secs_before_months, ih (m0 + 1), DateTime.secs_before_months]
    have : m0 + 1 + n = m0 + (n + 1) := by omega
    rw [this]
    omega

theorem days_before_month_mul (year : Nat) :
    ∀ n, 1 ≤ n →
      DateTime.days_before_month year n * 86400 =
        DateTime.secs_before_months year 1 (n - 1) := by
  intro n
  induction n with
  | zero => omega
  | succ n ih =>
    intro _
    rcases Nat.eq_zero_or_pos n with rfl | hn
    · simp [DateTime.days_before_month, DateTime.secs_before_months]
    · have hmatch : DateTime.days_before_month year (n + 1) =
          DateTime.days_before_month year n + days_in_month year (Month.from_u8 n) := by
        rcases n with _ | n'
        · omega
        · rw [DateTime.days_before_month]
      rw [hmatch, Nat.add_mul, ih hn]
      have hshape : n + 1 - 1 = (n - 1) + 1 := by omega
      rw [hshape, secs_before_months_succ]
      have : 1 + (n - 1) = n := by omega
      rw [this]

theorem secs_before_months_ge (year : Nat) :
    ∀ n m0, n ≤ DateTime.secs_before_months year m0 n := by
  intro n
  induction n with
  | zero => intro m0; exact Nat.le_refl 0
  | succ n ih =>
    intro m0
    rw [DateTime.secs_before_months]
    have h1 := ih (m0 + 1)
    have h2 := days_in_month_pos year (Month.from_u8 m0)
    omega

theorem month_loop_eq (year : Nat) (n : Nat) :
    ∀ (m0 fuel s : Nat), n < fuel →
      s < days_in_month year (Month.from_u8 (m0 + n)) * 86400 →
      DateTime.month_loop fuel year m0 (DateTime.secs_before_months year m0 n + s) =
        (m0 + n, s) := by
  induction n with
  | zero =>
    intro m0 fuel s hfuel hs
    rcases fuel with _ | fuel
    · omega
    · rw [DateTime.month_loop]
      rw [if_neg (by simpa [DateTime.secs_before_months] using hs)]
      simp [DateTime.secs_before_months]
  | succ n ih =>
    intro m0 fuel s hfuel hs
    rcases fuel with _ | fuel
    · omega
    · rw [DateTime.month_loop, DateTime.secs_before_months]
      rw [if_pos (by omega)]
      have harg : days_in_month year (Month.from_u8 m0) * 86400 +
          DateTime.secs_before_months year (m0 + 1) n + s -
          days_in_month year (Month.from_u8 m0) * 86400 =
          DateTime.secs_before_months year (m0 + 1) n + s := by omega
      rw [harg]
      have hs' : s < days_in_month year (Month.from_u8 (m0 + 1 + n)) * 86400 := by
        have : m0 + 1 + n = m0 + (n + 1) := by omega
        rw [this]
        exact hs
      rw [ih (m0 + 1) fuel s (by omega) hs']
      have : m0 + 1 + n = m0 + (n + 1) := by omega
      rw [this]

theorem sub_loop_eq (c : Nat) (hc : 1 ≤ c) :
    ∀ (fuel s k : Nat), s < fuel →
      DateTime.sub_loop c fuel k s = (k + s / c, s % c) := by
  intro fuel
  induction fuel with
  | zero =>
    intro s k h
    omega
  | succ fuel ih =>
    intro s k h
    rw [DateTime.sub_loop]
    by_cases hcs : c ≤ s
    · rw [if_pos hcs]
      rw [ih (s - c) (k + 1) (by omega)]
      have h1 : s / c = (s - c) / c + 1 := Nat.div_eq_sub_div (by omega) hcs
      have h2 : s % c = (s - c) % c := Nat.mod_eq_sub_mod hcs
      have h3 : k + 1 + (s - c) / c = k + ((s - c) / c + 1) := by ring
      rw [h1, h2, h3]
    · rw [if_neg hcs]
      rw [Nat.div_eq_of_lt (by omega), Nat.mod_eq_of_lt (by omega)]
      simp

theorem datetime_parts_new (y : Nat) (m : Month) (d hh mi sec : Nat)
    (hy : 1970 ≤ y) (hd1 : 1 ≤ d) (hd2 : d ≤ days_in_month y m)
    (hhh : hh < 24) (hmi : mi < 60) (hsec : sec < 60) :
    DateTime.parts (DateTime.new y m d hh mi sec) =
      { year := y, month := m, day := d, hour := hh, minute := mi, second := sec } := by
  have hnum1 : 1 ≤ m.num := month_num_pos m
  have hfrom : Month.from_u8 m.num = m := month_from_u8_num m
  have hbound := month_days_bound y m
  have h86 : ∀ x r : Nat, r < 86400 →
      (x * 86400 + r) / 86400 = x ∧ (x * 86400 + r) % 86400 = r :=
    fun x r hr => by omega
  have h36 : ∀ x r : Nat, r < 3600 →
      (x * 3600 + r) / 3600 = x ∧ (x * 3600 + r) % 3600 = r :=
    fun x r hr => by omega
  have h60 : ∀ x r : Nat, r < 60 → (x * 60 + r) / 60 = x ∧ (x * 60 + r) % 60 = r :=
    fun x r hr => by omega
  have hhms : hh * 3600 + mi * 60 + sec < 86400 := by omega
  have hdbm : DateTime.days_before_month y m.num * 86400 =
      DateTime.secs_before_months y 1 (m.num - 1) := days_before_month_mul y m.num hnum1
  have hmm : 1 + (m.num - 1) = m.num := by omega
  have hrest2 : (d - 1) * 86400 + (hh * 3600 + mi * 60 + sec) < days_in_month y m * 86400 := by
    have h1 : (d - 1) + 1 ≤ days_in_month y m := by omega
    have h2 := Nat.mul_le_mul_right 86400 h1
    have h3 : ((d - 1) + 1) * 86400 = (d - 1) * 86400 + 86400 := by ring
    omega
  have hrest : DateTime.secs_before_months y 1 (m.num - 1) +
      ((d - 1) * 86400 + (hh * 3600 + mi * 60 + sec)) < days_in_year y * 86400 := by
    rw [← hdbm]
    have h2 := Nat.mul_le_mul_right 86400 hbound
    have h3 : (DateTime.days_before_month y m.num + days_in_month y m) * 86400 =
        DateTime.days_before_month y m.num * 86400 + days_in_month y m * 86400 := by ring
    omega
  have hS : DateTime.new y m d hh mi sec =
      DateTime.secs_before_years 1970 (y - 1970) +
        (DateTime.secs_before_months y 1 (m.num - 1) +
          ((d - 1) * 86400 + (hh * 3600 + mi * 60 + sec))) := by
    rw [DateTime.new, ← days_before_year_mul, ← hdbm]
    ring
  have hyy : 1970 + (y - 1970) = y := by omega
  have hyear : DateTime.year_loop (DateTime.new y m d hh mi sec + 1) 1970
      (DateTime.new y m d hh mi sec) =
      (y, DateTime.secs_before_months y 1 (m.num - 1) +
        ((d - 1) * 86400 + (hh * 3600 + mi * 60 + sec))) := by
    rw [hS]
    have hge := secs_before_years_ge 1970 (y - 1970)
    have h := year_loop_eq (y - 1970) 1970
      (DateTime.secs_before_years 1970 (y - 1970) +
        (DateTime.secs_before_months y 1 (m.num - 1) +
          ((d - 1) * 86400 + (hh * 3600 + mi * 60 + sec))) + 1)
      (DateTime.secs_before_months y 1 (m.num - 1) +
        ((d - 1) * 86400 + (hh * 3600 + mi * 60 + sec)))
      (by omega) (by rw [hyy]; exact hrest)
    rw [hyy] at h
    exact h
  have hrest2f : (d - 1) * 86400 + (hh * 3600 + mi * 60 + sec) <
      days_in_month y (Month.from_u8 (1 + (m.num - 1))) * 86400 := by
    rw [hmm, hfrom]
    exact hrest2
  have hmonth : DateTime.month_loop
      (DateTime.secs_before_months y 1 (m.num - 1) +
        ((d - 1) * 86400 + (hh * 3600 + mi * 60 + sec)) + 1) y 1
      (DateTime.secs_before_months y 1 (m.num - 1) +
        ((d - 1) * 86400 + (hh * 3600 + mi * 60 + sec))) =
      (m.num, (d - 1) * 86400 + (hh * 3600 + mi * 60 + sec)) := by
    have hge := secs_before_months_ge y (m.num - 1) 1
    have h := month_loop_eq y (m.num - 1) 1
      (DateTime.secs_before_months y 1 (m.num - 1) +
        ((d - 1) * 86400 + (hh * 3600 + mi * 60 + sec)) + 1)
      ((d - 1) * 86400 + (hh * 3600 + mi * 60 + sec))
      (by omega) hrest2f
    rw [hmm] at h
    exact h
  have hday : DateTime.sub_loop 86400
      ((d - 1) * 86400 + (hh * 3600 + mi * 60 + sec) + 1) 1
      ((d - 1) * 86400 + (hh * 3600 + mi * 60 + sec)) =
      (d, hh * 3600 + mi * 60 + sec) := by
    rw [sub_loop_eq 86400 (by omega)
      ((d - 1) * 86400 + (hh * 3600 + mi * 60 + sec) + 1)
      ((d - 1) * 86400 + (hh * 3600 + mi * 60 + sec)) 1 (by omega)]
    rw [(h86 (d - 1) (hh * 3600 + mi * 60 + sec) hhms).1,
      (h86 (d - 1) (hh * 3600 + mi * 60 + sec) hhms).2]
    simp only [Prod.mk.injEq]
    exact ⟨by omega, trivial⟩
  have hhour : DateTime.sub_loop 3600 (hh * 3600 + mi * 60 + sec + 1) 0
      (hh * 3600 + mi * 60 + sec) = (hh, mi * 60 + sec) := by
    rw [sub_loop_eq 3600 (by omega) (hh * 3600 + mi * 60 + sec + 1)
      (hh * 3600 + mi * 60 + sec) 0 (by omega)]
    have harr : hh * 3600 + mi * 60 + sec = hh * 3600 + (mi * 60 + sec) := by omega
    rw [harr, (h36 hh (mi * 60 + sec) (by omega)).1, (h36 hh (mi * 60 + sec) (by omega)).2]
    simp
  have hminute : DateTime.sub_loop 60 (mi * 60 + sec + 1) 0 (mi * 60 + sec) =
      (mi, sec) := by
    rw [sub_loop_eq 60 (by omega) (mi * 60 + sec + 1) (mi * 60 + sec) 0 (by omega)]
    rw [(h60 mi sec hsec).1, (h60 mi sec hsec).2]
    simp
  simp only [DateTime.parts, hyear, hmonth, hday, hhour, hminute, hfrom]

theorem is_leap_year_iff (y : Nat) :
    is_leap_year y = true ↔ (y % 4 = 0 ∧ (y % 100 ≠ 0 ∨ y % 400 = 0)) := by
  unfold is_leap_year
  split_ifs with h1 h2 h3 <;> simp <;> omega

/-- C9: `DateTime::new 1985 August 28 1 2 3` equals 494,038,923 seconds
since 1970-01-01 UTC; for every valid date in the `u32` seconds range,
`parts` applied to `new` returns the same six fields; and the leap-year
rule is the Gregorian one (divisible by 4, except centuries not divisible
by 400). -/
theorem datetime_new_parts_roundtrip :
    DateTime.new 1985 Month.august 28 1 2 3 = 494038923 ∧
    (∀ (y : Nat) (m : Month) (d hh mi sec : Nat),
      1970 ≤ y → 1 ≤ d → d ≤ days_in_month y m → hh < 24 → mi < 60 → sec < 60 →
      DateTime.new y m d hh mi sec < 4294967296 →
      DateTime.parts (DateTime.new y m d hh mi sec) =
        { year := y, month := m, day := d, hour := hh, minute := mi, second := sec }) ∧
    (∀ y : Nat, is_leap_year y = true ↔ (y % 4 = 0 ∧ (y % 100 ≠ 0 ∨ y % 400 = 0))) := by
  refine ⟨by decide, ?_, is_leap_year_iff⟩
  intro y m d hh mi sec hy hd1 hd2 hhh hmi hsec _
  exact datetime_parts_new y m d hh mi sec hy hd1 hd2 hhh hmi hsec

/-- C9 witness: the round trip at 1985-08-28 01:02:03. -/
theorem datetime_new_parts_roundtrip_witness :
    (1970 ≤ 1985 ∧ 1 ≤ 28 ∧ 28 ≤ days_in_month 1985 Month.august ∧
      DateTime.new 1985 Month.august 28 1 2 3 < 4294967296) ∧
    DateTime.parts (DateTime.new 1985 Month.august 28 1 2 3) =
      { year := 1985, month := Month.august, day := 28, hour := 1, minute := 2, second := 3 } := by
  constructor
  · exact ⟨by omega, by omega, by decide, by decide⟩
  · exact datetime_new_parts_roundtrip.2.1 1985 Month.august 28 1 2 3
      (by omega) (by omega) (by decide) (by omega) (by omega) (by omega) (by decide)

/-- C7 witness: the anchored projection at a concrete anchor, one tick
count after and one before the anchor. -/
theorem watch_at_anchor_witness :
    ((100 : Int) ≤ 132868 ∧
      Watch.at' 32768 (some (1000, 100)) 132868 =
        some (Watch.dt_add 32768 1000 (132868 - 100))) ∧
    ((50 : Int) < 100 ∧
      Watch.at' 32768 (some (1000, 100)) 50 =
        some (Watch.dt_sub 32768 1000 (100 - 50))) := by
  constructor
  · exact ⟨by decide, (watch_at_anchor 32768 1000 100 132868 0).1 (by decide)⟩
  · exact ⟨by decide, (watch_at_anchor 32768 1000 100 50 0).2.1 (by decide)⟩

end DroneTime
